import Mathlib

/-!
Verification of the contribution-aggregation engine of `src/report.js`
(activity-dashboard).

Shallow embedding conventions:

* Timestamps are modelled at UTC-day granularity, as an integer count of days
  since 1970-01-01 (the process runs with TZ=UTC, so the source's local-time
  `setHours(0,0,0,0)` truncation and its UTC `toISOString().split('T')[0]`
  truncation agree, and every comparison the source makes on timestamps is
  decided by the calendar day alone: window checks compare against a midnight
  instant, and bucketing first truncates to the day).
* JavaScript `Date` field arithmetic (`setFullYear`, `setDate`) normalizes
  out-of-range fields; `daysFromCivil` below has exactly that normalization
  behaviour (e.g. Feb 29 of a non-leap year denotes Mar 1).
* A JavaScript `Map` is modelled as an association list: keys unique,
  insertion order preserved, `set` on a fresh key appends.
* `Array.prototype.sort` is required by ECMAScript to be stable; a stable
  sort for a total preorder comparator is unique, so it is modelled by
  `List.insertionSort` (stable in Mathlib's right-fold formulation).
* The source's `0.25`, `0.5`, `0.75` are the exact binary doubles 1/4, 1/2,
  3/4, and `maxCount * 0.25` etc. are exact double products throughout the
  range reachable by counting events, so the threshold comparisons are
  modelled exactly over `ℚ`.
-/

/-- Days since 1970-01-01 of the civil date (y, m, d), proleptic Gregorian
(Hinnant's `days_from_civil`). Out-of-range day-of-month values denote the
correspondingly shifted day, matching JavaScript `Date` field normalization. -/
def daysFromCivil (y m d : ℤ) : ℤ :=
  let yy := if m ≤ 2 then y - 1 else y
  let era := yy / 400
  let yoe := yy - era * 400
  let mp := (m + 9) % 12
  let doy := (153 * mp + 2) / 5 + d - 1
  let doe := yoe * 365 + yoe / 4 - yoe / 100 + doy
  era * 146097 + doe - 719468

/-- Civil date (y, m, d) of a days-since-1970-01-01 count (Hinnant's
`civil_from_days`). -/
def civilFromDays (z : ℤ) : ℤ × ℤ × ℤ :=
  let z' := z + 719468
  let era := z' / 146097
  let doe := z' - era * 146097
  let yoe := (doe - doe / 1460 + doe / 36524 - doe / 146096) / 365
  let y := yoe + era * 400
  let doy := doe - (365 * yoe + yoe / 4 - yoe / 100)
  let mp := (5 * doy + 2) / 153
  let d := doy - (153 * mp + 2) / 5 + 1
  let m := mp + (if mp < 10 then 3 else -9)
  (y + (if m ≤ 2 then 1 else 0), m, d)

/-- The `oneYearAgo` computation every aggregator performs:
`const oneYearAgo = new Date(); oneYearAgo.setFullYear(getFullYear() - 1);
oneYearAgo.setHours(0,0,0,0);` — same civil month/day, previous year, with
JS normalization (Feb 29 of a non-leap year becomes Mar 1). -/
def oneYearAgo (today : ℤ) : ℤ :=
  let c := civilFromDays today
  daysFromCivil (c.1 - 1) c.2.1 c.2.2

/-- `getWeekKey` (report.js:199-207): Monday of the week of the given day.
JS `getDay()` is `(e + 4) % 7` (day 0 = 1970-01-01 was a Thursday = 4), and
`setDate(getDate() - day + (day === 0 ? -6 : 1))` shifts the day by
`-day + (day = 0 ? -6 : 1)`. -/
def getWeekKey (e : ℤ) : ℤ :=
  let day := (e + 4) % 7
  e - day + (if day = 0 then -6 else 1)

/-- JS `getDay() === 1`: the day is a Monday. -/
def isMonday (e : ℤ) : Bool := (e + 4) % 7 == 1

/-- A commit record as normalized by `getAllOrgCommits` (report.js:541-547):
`date` (modelled by its UTC day) and `login: c.author?.login || null`.
`none` models `null`. -/
structure Commit where
  day : ℤ
  login : Option String
deriving DecidableEq

/-- A PR or issue record as normalized by `getOrgPRsAndIssues`
(report.js:585-611): creation date (modelled by its UTC day) and `author`
(already a string; the fetch layer substitutes the literal "unknown" when
the login is absent). -/
structure ActorEvent where
  day : ℤ
  author : String
deriving DecidableEq

/-- The `c.author?.login || null` normalization of `getAllOrgCommits`:
an absent or empty login becomes `null`. -/
def normalizeCommitLogin (login : Option String) : Option String :=
  match login with
  | none => none
  | some l => if l.isEmpty then none else some l

/-- The `pr.user?.login || 'unknown'` normalization of `getOrgPRsAndIssues`
(used for both PRs and issues): an absent or empty login becomes the literal
string "unknown". -/
def normalizeActor (login : Option String) : String :=
  match login with
  | none => "unknown"
  | some l => if l.isEmpty then "unknown" else l

/-- A day bucket of the contribution calendar: `{ date, count, level }`
(report.js:639). -/
structure DayBucket where
  date : ℤ
  count : ℕ
  level : ℕ
deriving DecidableEq

/-- The day buckets initialized by `createContributionCalendar`'s window loop
(report.js:637-640): one zero bucket per day, in ascending order. -/
def calendarInit (start : ℤ) (n : ℕ) : List DayBucket :=
  (List.range n).map fun (i : ℕ) => ⟨start + (i : ℤ), 0, 0⟩

/-- `if (calendar.has(date)) calendar.get(date).count += w` — update the
bucket of day `d` if present (keys are unique, so the pointwise map updates
exactly that bucket; when `d` is absent the map changes nothing, which is the
`has` guard's behaviour). -/
def calendarBump (cal : List DayBucket) (d : ℤ) (w : ℕ) : List DayBucket :=
  cal.map fun b => if b.date = d then ⟨b.date, b.count + w, b.level⟩ else b

/-- The level rule of report.js:670-682, with the double products
`maxCount * 0.25/0.5/0.75` written exactly as the rationals they denote. -/
def levelFor (maxCount count : ℕ) : ℕ :=
  if count = 0 then 0
  else if (count : ℚ) ≤ (maxCount : ℚ) * (1 / 4) then 1
  else if (count : ℚ) ≤ (maxCount : ℚ) * (1 / 2) then 2
  else if (count : ℚ) ≤ (maxCount : ℚ) * (3 / 4) then 3
  else 4

/-- The accumulation phase of `createContributionCalendar`
(report.js:626-664): initialize one zero bucket per day from `oneYearAgo` to
`today` inclusive, then add weight 1 per commit, 2 per PR, 1 per issue into
the bucket of the event's UTC day (events with no bucket are dropped). -/
def calendarCounts (today : ℤ) (commits : List Commit)
    (prs issues : List ActorEvent) : List DayBucket :=
  let start := oneYearAgo today
  let init := calendarInit start (today + 1 - start).toNat
  let c1 := commits.foldl (fun cal c => calendarBump cal c.day 1) init
  let c2 := prs.foldl (fun cal p => calendarBump cal p.day 2) c1
  issues.foldl (fun cal e => calendarBump cal e.day 1) c2

/-- `const maxCount = Math.max(...counts, 1)` (report.js:667-668). -/
def calendarMaxCount (today : ℤ) (commits : List Commit)
    (prs issues : List ActorEvent) : ℕ :=
  max (((calendarCounts today commits prs issues).map fun b => b.count).foldr max 0) 1

/-- `createContributionCalendar` (report.js:626-685): accumulate counts, then
assign each bucket its level relative to `maxCount`. -/
def createContributionCalendar (today : ℤ) (commits : List Commit)
    (prs issues : List ActorEvent) : List DayBucket :=
  let maxCount := calendarMaxCount today commits prs issues
  (calendarCounts today commits prs issues).map fun b =>
    ⟨b.date, b.count, levelFor maxCount b.count⟩

/-- The list of days the calendar window loop visits: `oneYearAgo today` up to
`today`, inclusive. -/
def windowDays (today : ℤ) : List ℤ :=
  (List.range (today + 1 - oneYearAgo today).toNat).map
    fun (i : ℕ) => oneYearAgo today + (i : ℤ)

/-- A weekly commit bucket `{ week, count }` (report.js:135). -/
structure WeekBucket where
  week : ℤ
  count : ℕ
deriving DecidableEq

/-- `if (!weeklyData.has(weekKey)) set(weekKey, {week, count: 0});
weeklyData.get(weekKey).count++` (report.js:143-147): increment the bucket of
week `k`, appending a fresh bucket if absent. -/
def weekBump (m : List WeekBucket) (k : ℤ) : List WeekBucket :=
  if m.any fun w => w.week == k then
    m.map fun w => if w.week = k then ⟨w.week, w.count + 1⟩ else w
  else m ++ [⟨k, 1⟩]

/-- The `weeklyData` map built by `groupCommitsByWeek` (report.js:128-148):
52 zero buckets at the week keys of `oneYearAgo + 7i` (i = 0..51), then one
increment per commit dated on/after `oneYearAgo`, keyed by the commit's
week. -/
def commitWeekMap (today : ℤ) (commits : List Commit) : List WeekBucket :=
  let start := oneYearAgo today
  let init := (List.range 52).map
    fun (i : ℕ) => (⟨getWeekKey (start + 7 * (i : ℤ)), 0⟩ : WeekBucket)
  commits.foldl
    (fun m c => if c.day < start then m else weekBump m (getWeekKey c.day)) init

/-- `groupCommitsByWeek` (report.js:123-157): sort the bucket map by week key
(ISO-string order = day order) and keep only weeks on/after `oneYearAgo`. -/
def groupCommitsByWeek (today : ℤ) (commits : List Commit) : List WeekBucket :=
  (List.insertionSort (fun a b => a.week ≤ b.week)
      (commitWeekMap today commits)).filter
    fun w => decide (oneYearAgo today ≤ w.week)

/-- A weekly code-change bucket `{ week, additions, deletions }`
(report.js:172). GitHub reports deletions as negative numbers, so values
are integers. -/
structure CodeWeekBucket where
  week : ℤ
  additions : ℤ
  deletions : ℤ
deriving DecidableEq

/-- One `[timestamp, additions, deletions]` triple of the code-frequency
endpoint; the timestamp (Unix seconds, `new Date(item[0] * 1000)`) is
modelled by its UTC day. -/
structure CodeFreqItem where
  day : ℤ
  additions : ℤ
  deletions : ℤ
deriving DecidableEq

/-- The ensure-then-accumulate step of `groupCodeFrequencyByWeek`
(report.js:181-187). -/
def codeWeekBump (m : List CodeWeekBucket) (k a d : ℤ) : List CodeWeekBucket :=
  if m.any fun w => w.week == k then
    m.map fun w =>
      if w.week = k then ⟨w.week, w.additions + a, w.deletions + d⟩ else w
  else m ++ [⟨k, a, d⟩]

/-- The `weeklyData` map built by `groupCodeFrequencyByWeek`
(report.js:165-188). -/
def codeFreqWeekMap (today : ℤ) (codeFreq : List CodeFreqItem) :
    List CodeWeekBucket :=
  let start := oneYearAgo today
  let init := (List.range 52).map
    fun (i : ℕ) => (⟨getWeekKey (start + 7 * (i : ℤ)), 0, 0⟩ : CodeWeekBucket)
  codeFreq.foldl
    (fun m item =>
      if item.day < start then m
      else codeWeekBump m (getWeekKey item.day) item.additions item.deletions)
    init

/-- `groupCodeFrequencyByWeek` (report.js:160-197). -/
def groupCodeFrequencyByWeek (today : ℤ) (codeFreq : List CodeFreqItem) :
    List CodeWeekBucket :=
  (List.insertionSort (fun a b => a.week ≤ b.week)
      (codeFreqWeekMap today codeFreq)).filter
    fun w => decide (oneYearAgo today ≤ w.week)

/-- The weekly code-change series `run` hands to the report
(report.js:1649-1651): `Array.isArray(codeFreq) && codeFreq.length > 0 ?
groupCodeFrequencyByWeek(codeFreq) : []`. -/
def weeklyCodeChanges (today : ℤ) (codeFreq : List CodeFreqItem) :
    List CodeWeekBucket :=
  if codeFreq.isEmpty then [] else groupCodeFrequencyByWeek today codeFreq

/-- An organization member as fetched by `getOrgMembers` (login and
avatar URL). -/
structure Member where
  login : String
  avatar : String
deriving DecidableEq

/-- A contributor record `{ login, avatar, commits, prs, issues, total }`
(report.js:698-705). -/
structure ContribRecord where
  login : String
  avatar : String
  commits : ℕ
  prs : ℕ
  issues : ℕ
  total : ℕ
deriving DecidableEq

/-- The identicon fallback URL for contributors outside the member seed. -/
def identiconUrl (login : String) : String :=
  "https://github.com/identicons/" ++ login ++ ".png"

/-- A fresh zero record for a first-encountered contributor
(report.js:713-720). -/
def freshRecord (login : String) : ContribRecord :=
  ⟨login, identiconUrl login, 0, 0, 0, 0⟩

/-- The member seeding of `buildContributionReport` (report.js:696-706):
every organization member starts with an all-zero record. -/
def seedMembers (members : List Member) : List ContribRecord :=
  members.map fun m => ⟨m.login, m.avatar, 0, 0, 0, 0⟩

/-- `if (!map.has(login)) map.set(login, fresh)` (report.js:711-721). -/
def ensureRecord (m : List ContribRecord) (login : String) :
    List ContribRecord :=
  if m.any fun r => r.login == login then m else m ++ [freshRecord login]

/-- The per-commit accumulation (report.js:709-725): `if (c.login)` — a
`null` or empty login contributes nothing; otherwise `commits++` and
`total++` on the (possibly freshly inserted) record. -/
def addCommit (m : List ContribRecord) (c : Commit) : List ContribRecord :=
  match c.login with
  | none => m
  | some l =>
    if l.isEmpty then m
    else
      (ensureRecord m l).map fun r =>
        if r.login = l then
          ⟨r.login, r.avatar, r.commits + 1, r.prs, r.issues, r.total + 1⟩
        else r

/-- The per-PR accumulation (report.js:728-743): `if (pr.author)` — an empty
author contributes nothing; otherwise `prs++` and `total += 2`. -/
def addPR (m : List ContribRecord) (p : ActorEvent) : List ContribRecord :=
  if p.author.isEmpty then m
  else
    (ensureRecord m p.author).map fun r =>
      if r.login = p.author then
        ⟨r.login, r.avatar, r.commits, r.prs + 1, r.issues, r.total + 2⟩
      else r

/-- The per-issue accumulation (report.js:746-761): `issues++`, `total++`. -/
def addIssue (m : List ContribRecord) (e : ActorEvent) : List ContribRecord :=
  if e.author.isEmpty then m
  else
    (ensureRecord m e.author).map fun r =>
      if r.login = e.author then
        ⟨r.login, r.avatar, r.commits, r.prs, r.issues + 1, r.total + 1⟩
      else r

/-- The `memberContributions` map of `buildContributionReport`
(report.js:692-761): seed the members, then fold commits, PRs and issues in
that order. -/
def memberContributions (members : List Member) (commits : List Commit)
    (prs issues : List ActorEvent) : List ContribRecord :=
  let s := seedMembers members
  let s := commits.foldl addCommit s
  let s := prs.foldl addPR s
  issues.foldl addIssue s

/-- The ranking comparator `(a, b) => b.total - a.total`: `a` precedes `b`
when `b.total ≤ a.total` (descending by total). -/
def byTotalDesc (a b : ContribRecord) : Prop := b.total ≤ a.total

instance : DecidableRel byTotalDesc := fun a b => Nat.decLe b.total a.total

instance : IsTotal ContribRecord byTotalDesc :=
  ⟨fun a b => le_total b.total a.total⟩

instance : IsTrans ContribRecord byTotalDesc :=
  ⟨fun _ _ _ hab hbc => le_trans hbc hab⟩

/-- `topContributors` of the organization-wide report (report.js:764-766):
stable sort by total descending, capped at 20. The later avatar-refresh loop
only rewrites `avatar` fields and is presentation-only. -/
def topContributors (members : List Member) (commits : List Commit)
    (prs issues : List ActorEvent) : List ContribRecord :=
  (List.insertionSort byTotalDesc
      (memberContributions members commits prs issues)).take 20

/-- The `contributorMap` of `generateRepoContributionReport`
(report.js:1277-1328): same accumulation, with no member seed. -/
def repoContributorMap (commits : List Commit) (prs issues : List ActorEvent) :
    List ContribRecord :=
  let s := commits.foldl addCommit ([] : List ContribRecord)
  let s := prs.foldl addPR s
  issues.foldl addIssue s

/-- The per-repository `topContributors` (report.js:1331-1333): stable sort
by total descending, capped at 10. -/
def repoTopContributors (commits : List Commit) (prs issues : List ActorEvent) :
    List ContribRecord :=
  (List.insertionSort byTotalDesc (repoContributorMap commits prs issues)).take 10

/-- Modelled from the spec: the level rule as worded in §4.2 — "0 if count=0;
1 if `0 < count ≤ 0.25·maxCount`; 2 if `≤ 0.5·maxCount`; 3 if
`≤ 0.75·maxCount`; 4 otherwise", thresholds inclusive. -/
def specLevel (maxCount count : ℕ) : ℕ :=
  if count = 0 then 0
  else if 0 < count ∧ (count : ℚ) ≤ (maxCount : ℚ) * (1 / 4) then 1
  else if (count : ℚ) ≤ (maxCount : ℚ) * (1 / 2) then 2
  else if (count : ℚ) ≤ (maxCount : ℚ) * (3 / 4) then 3
  else 4

/-- Modelled from the spec: the trailing-365-day window `[today − 365d,
today]`, inclusive of both endpoints (366 days). -/
def trailingWindow365 (today : ℤ) : List ℤ :=
  (List.range 366).map fun (i : ℕ) => today - 365 + (i : ℤ)

/-- Modelled from the spec: the number of Mondays in the trailing-365-day
window. -/
def mondaysInTrailingWindow (today : ℤ) : ℕ :=
  ((trailingWindow365 today).filter fun d => isMonday d).length

/-- JS truthiness of an optional login string (what `if (c.login)` tests). -/
def truthyLogin : Option String → Bool
  | none => false
  | some l => !l.isEmpty

/-! ## General helper lemmas -/

theorem foldl_inv {α β : Type _} (Q : β → Prop) (f : β → α → β)
    (h : ∀ s a, Q s → Q (f s a)) :
    ∀ (l : List α) (s : β), Q s → Q (l.foldl f s) := by
  intro l
  induction l with
  | nil => exact fun s hs => hs
  | cons a l ih => intro s hs; exact ih (f s a) (h s a hs)

theorem foldl_filter_of_id {α β : Type _} (f : β → α → β) (p : α → Bool)
    (h : ∀ s a, p a = false → f s a = s) :
    ∀ (l : List α) (s : β), (l.filter p).foldl f s = l.foldl f s := by
  intro l
  induction l with
  | nil => intro s; rfl
  | cons a l ih =>
    intro s
    cases hpa : p a with
    | true => simp only [List.filter_cons, hpa, if_true, List.foldl_cons, ih]
    | false =>
      simp only [List.filter_cons, hpa, Bool.false_eq_true, if_false,
        List.foldl_cons, ih, h s a hpa]

/-! ## Calendar window structure -/

theorem calendarBump_map_date (cal : List DayBucket) (d : ℤ) (w : ℕ) :
    (calendarBump cal d w).map (fun b => b.date) = cal.map fun b => b.date := by
  unfold calendarBump
  rw [List.map_map]
  apply List.map_congr_left
  intro b _
  by_cases hb : b.date = d <;> simp [hb]

theorem foldl_calendarBump_map_date {α : Type _} (dayOf : α → ℤ) (w : ℕ) :
    ∀ (l : List α) (cal : List DayBucket),
      ((l.foldl (fun c a => calendarBump c (dayOf a) w) cal).map fun b => b.date)
        = cal.map fun b => b.date := by
  intro l
  induction l with
  | nil => intro cal; rfl
  | cons a l ih =>
    intro cal
    rw [List.foldl_cons, ih, calendarBump_map_date]

theorem calendarCounts_map_date (today : ℤ) (commits : List Commit)
    (prs issues : List ActorEvent) :
    (calendarCounts today commits prs issues).map (fun b => b.date)
      = windowDays today := by
  unfold calendarCounts windowDays calendarInit
  rw [foldl_calendarBump_map_date (fun e : ActorEvent => e.day) 1,
    foldl_calendarBump_map_date (fun p : ActorEvent => p.day) 2,
    foldl_calendarBump_map_date (fun c : Commit => c.day) 1,
    List.map_map]
  rfl

theorem createContributionCalendar_map_date (today : ℤ) (commits : List Commit)
    (prs issues : List ActorEvent) :
    (createContributionCalendar today commits prs issues).map (fun b => b.date)
      = windowDays today := by
  unfold createContributionCalendar
  rw [List.map_map]
  exact calendarCounts_map_date today commits prs issues

theorem windowDays_pairwise (today : ℤ) :
    (windowDays today).Pairwise (· < ·) := by
  unfold windowDays
  rw [List.pairwise_map]
  apply (List.pairwise_lt_range _).imp
  intro i j hij
  omega

theorem createContributionCalendar_length (today : ℤ) (commits : List Commit)
    (prs issues : List ActorEvent) :
    (createContributionCalendar today commits prs issues).length
      = (today + 1 - oneYearAgo today).toNat := by
  have h := congrArg List.length
    (createContributionCalendar_map_date today commits prs issues)
  rw [List.length_map] at h
  rw [h]
  simp [windowDays]

/-! ## Week keys: Mondays, uniqueness, sortedness -/

theorem getWeekKey_isMonday (e : ℤ) : isMonday (getWeekKey e) = true := by
  simp only [isMonday, getWeekKey, beq_iff_eq]
  split <;> omega

theorem getWeekKey_shift (e : ℤ) (i : ℕ) :
    getWeekKey (e + 7 * (i : ℤ)) = getWeekKey e + 7 * (i : ℤ) := by
  simp only [getWeekKey]
  have h : (e + 7 * (i : ℤ) + 4) % 7 = (e + 4) % 7 := by omega
  rw [h]
  split <;> ring

theorem pairwise_lt_key_sorted_filter {α : Type _} (key : α → ℤ)
    (m : List α) (p : α → Bool) (hnd : (m.map key).Nodup) :
    (((List.insertionSort (fun a b => key a ≤ key b) m).filter p).map
      key).Pairwise (· < ·) := by
  haveI ht : IsTotal α (fun a b => key a ≤ key b) := ⟨fun a b => le_total _ _⟩
  haveI htr : IsTrans α (fun a b => key a ≤ key b) :=
    ⟨fun _ _ _ hab hbc => le_trans hab hbc⟩
  have hs := List.sorted_insertionSort (fun a b => key a ≤ key b) m
  have hperm := List.perm_insertionSort (fun a b => key a ≤ key b) m
  have hnd' : ((List.insertionSort (fun a b => key a ≤ key b) m).map
      key).Nodup := ((hperm.map key).nodup_iff).mpr hnd
  have hne : List.Pairwise (fun a b => key a ≠ key b)
      (List.insertionSort (fun a b => key a ≤ key b) m) :=
    List.pairwise_map.mp hnd'
  have hlt : List.Pairwise (fun a b => key a < key b)
      (List.insertionSort (fun a b => key a ≤ key b) m) :=
    (List.Pairwise.and hs hne).imp fun h => lt_of_le_of_ne h.1 h.2
  exact List.pairwise_map.mpr (hlt.filter p)

theorem weekBump_map_week_nodup (m : List WeekBucket) (k : ℤ)
    (h : (m.map fun w => w.week).Nodup) :
    ((weekBump m k).map fun w => w.week).Nodup := by
  unfold weekBump
  split
  case isTrue hany =>
    have heq : ((m.map fun w =>
        if w.week = k then (⟨w.week, w.count + 1⟩ : WeekBucket) else w).map
          fun w => w.week) = m.map fun w => w.week := by
      rw [List.map_map]
      apply List.map_congr_left
      intro w _
      by_cases hw : w.week = k <;> simp [hw]
    rw [heq]
    exact h
  case isFalse hany =>
    rw [List.map_append]
    refine List.nodup_append.mpr ⟨h, by simp, ?_⟩
    intro x hx hmem
    simp only [List.map_cons, List.map_nil, List.mem_singleton] at hmem
    subst hmem
    obtain ⟨w, hw, hwk⟩ := List.mem_map.mp hx
    exact hany (List.any_eq_true.mpr ⟨w, hw, by simp [hwk]⟩)

theorem weekBump_monday (m : List WeekBucket) (k : ℤ)
    (hk : isMonday k = true) (h : ∀ w ∈ m, isMonday w.week = true) :
    ∀ w ∈ weekBump m k, isMonday w.week = true := by
  unfold weekBump
  split
  · intro w hw
    obtain ⟨w', hw', heq⟩ := List.mem_map.mp hw
    rw [← heq]
    by_cases hcase : w'.week = k
    · simp only [hcase, if_true]
      exact hk
    · simp only [hcase, if_false]
      exact h w' hw'
  · intro w hw
    rcases List.mem_append.mp hw with h1 | h2
    · exact h w h1
    · rw [List.mem_singleton.mp h2]
      exact hk

theorem commitWeekMap_inv (today : ℤ) (commits : List Commit) :
    ((commitWeekMap today commits).map fun w => w.week).Nodup
      ∧ ∀ w ∈ commitWeekMap today commits, isMonday w.week = true := by
  simp only [commitWeekMap]
  refine foldl_inv
    (fun (m : List WeekBucket) => ((m.map fun w => w.week).Nodup
      ∧ ∀ w ∈ m, isMonday w.week = true))
    _ ?_ commits _ ?_
  · rintro s c ⟨h1, h2⟩
    by_cases hday : c.day < oneYearAgo today
    · simpa [hday] using ⟨h1, h2⟩
    · simp only [hday, if_false]
      exact ⟨weekBump_map_week_nodup _ _ h1,
        weekBump_monday _ _ (getWeekKey_isMonday _) h2⟩
  · constructor
    · rw [List.map_map]
      have heq : (List.map ((fun w : WeekBucket => w.week) ∘ fun (i : ℕ) =>
          (⟨getWeekKey (oneYearAgo today + 7 * (i : ℤ)), 0⟩ : WeekBucket))
            (List.range 52))
          = List.map (fun (i : ℕ) => getWeekKey (oneYearAgo today) + 7 * (i : ℤ))
            (List.range 52) := by
        apply List.map_congr_left
        intro i _
        simp [Function.comp, getWeekKey_shift]
      rw [heq]
      refine List.Nodup.map ?_ (List.nodup_range 52)
      intro a b hab
      simp only at hab
      omega
    · intro w hw
      obtain ⟨i, _, heq⟩ := List.mem_map.mp hw
      rw [← heq]
      exact getWeekKey_isMonday _

theorem groupCommitsByWeek_pairwise (today : ℤ) (commits : List Commit) :
    ((groupCommitsByWeek today commits).map fun w => w.week).Pairwise (· < ·) := by
  simp only [groupCommitsByWeek]
  exact pairwise_lt_key_sorted_filter (fun w : WeekBucket => w.week) _ _
    (commitWeekMap_inv today commits).1

theorem groupCommitsByWeek_mem (today : ℤ) (commits : List Commit)
    (w : WeekBucket) (hw : w ∈ groupCommitsByWeek today commits) :
    isMonday w.week = true ∧ oneYearAgo today ≤ w.week := by
  simp only [groupCommitsByWeek] at hw
  obtain ⟨hmem, hp⟩ := List.mem_filter.mp hw
  have hm := (List.mem_insertionSort _).mp hmem
  exact ⟨(commitWeekMap_inv today commits).2 w hm, of_decide_eq_true hp⟩

theorem codeWeekBump_map_week_nodup (m : List CodeWeekBucket) (k a d : ℤ)
    (h : (m.map fun w => w.week).Nodup) :
    ((codeWeekBump m k a d).map fun w => w.week).Nodup := by
  unfold codeWeekBump
  split
  case isTrue hany =>
    have heq : ((m.map fun w =>
        if w.week = k then (⟨w.week, w.additions + a, w.deletions + d⟩ :
          CodeWeekBucket) else w).map fun w => w.week)
          = m.map fun w => w.week := by
      rw [List.map_map]
      apply List.map_congr_left
      intro w _
      by_cases hw : w.week = k <;> simp [hw]
    rw [heq]
    exact h
  case isFalse hany =>
    rw [List.map_append]
    refine List.nodup_append.mpr ⟨h, by simp, ?_⟩
    intro x hx hmem
    simp only [List.map_cons, List.map_nil, List.mem_singleton] at hmem
    subst hmem
    obtain ⟨w, hw, hwk⟩ := List.mem_map.mp hx
    exact hany (List.any_eq_true.mpr ⟨w, hw, by simp [hwk]⟩)

theorem codeFreqWeekMap_nodup (today : ℤ) (codeFreq : List CodeFreqItem) :
    ((codeFreqWeekMap today codeFreq).map fun w => w.week).Nodup := by
  simp only [codeFreqWeekMap]
  refine foldl_inv
    (fun (m : List CodeWeekBucket) => (m.map fun w => w.week).Nodup)
    _ ?_ codeFreq _ ?_
  · intro s item h1
    by_cases hday : item.day < oneYearAgo today
    · simpa [hday] using h1
    · simp only [hday, if_false]
      exact codeWeekBump_map_week_nodup _ _ _ _ h1
  · dsimp only
    rw [List.map_map]
    have heq : (List.map ((fun w : CodeWeekBucket => w.week) ∘ fun (i : ℕ) =>
        (⟨getWeekKey (oneYearAgo today + 7 * (i : ℤ)), 0, 0⟩ : CodeWeekBucket))
          (List.range 52))
        = List.map (fun (i : ℕ) => getWeekKey (oneYearAgo today) + 7 * (i : ℤ))
          (List.range 52) := by
      apply List.map_congr_left
      intro i _
      simp [Function.comp, getWeekKey_shift]
    rw [heq]
    refine List.Nodup.map ?_ (List.nodup_range 52)
    intro a b hab
    simp only at hab
    omega

theorem groupCodeFrequencyByWeek_pairwise (today : ℤ)
    (codeFreq : List CodeFreqItem) :
    ((groupCodeFrequencyByWeek today codeFreq).map
      fun w => w.week).Pairwise (· < ·) := by
  simp only [groupCodeFrequencyByWeek]
  exact pairwise_lt_key_sorted_filter (fun w : CodeWeekBucket => w.week) _ _
    (codeFreqWeekMap_nodup today codeFreq)

/-! ## The level rule over the naturals -/

theorem cast_le_quarter (c m : ℕ) :
    ((c : ℚ) ≤ (m : ℚ) * (1 / 4)) ↔ 4 * c ≤ m := by
  rw [mul_one_div, le_div_iff₀ (by norm_num : (0 : ℚ) < 4), mul_comm,
    show ((4 : ℚ) * (c : ℚ)) = ((4 * c : ℕ) : ℚ) by push_cast; ring,
    Nat.cast_le]

theorem cast_le_half (c m : ℕ) :
    ((c : ℚ) ≤ (m : ℚ) * (1 / 2)) ↔ 2 * c ≤ m := by
  rw [mul_one_div, le_div_iff₀ (by norm_num : (0 : ℚ) < 2), mul_comm,
    show ((2 : ℚ) * (c : ℚ)) = ((2 * c : ℕ) : ℚ) by push_cast; ring,
    Nat.cast_le]

theorem cast_le_three_quarters (c m : ℕ) :
    ((c : ℚ) ≤ (m : ℚ) * (3 / 4)) ↔ 4 * c ≤ 3 * m := by
  rw [show ((m : ℚ) * (3 / 4)) = ((3 * m : ℕ) : ℚ) / 4 by push_cast; ring,
    le_div_iff₀ (by norm_num : (0 : ℚ) < 4), mul_comm,
    show ((4 : ℚ) * (c : ℚ)) = ((4 * c : ℕ) : ℚ) by push_cast; ring,
    Nat.cast_le]

theorem levelFor_eq_nat (m c : ℕ) :
    levelFor m c = if c = 0 then 0
      else if 4 * c ≤ m then 1
      else if 2 * c ≤ m then 2
      else if 4 * c ≤ 3 * m then 3
      else 4 := by
  unfold levelFor
  simp only [cast_le_quarter, cast_le_half, cast_le_three_quarters]

theorem levelFor_eq_specLevel (m c : ℕ) : levelFor m c = specLevel m c := by
  unfold levelFor specLevel
  by_cases hc : c = 0
  · simp [hc]
  · simp [hc, Nat.pos_of_ne_zero hc]

/-! ## Contributor ranking: the total invariant and stability -/

theorem ensureRecord_mem (m : List ContribRecord) (l : String)
    (r : ContribRecord) (hr : r ∈ ensureRecord m l) :
    r ∈ m ∨ r = freshRecord l := by
  unfold ensureRecord at hr
  split at hr
  · exact Or.inl hr
  · rcases List.mem_append.mp hr with h1 | h2
    · exact Or.inl h1
    · exact Or.inr (List.mem_singleton.mp h2)

theorem addCommit_total_inv (m : List ContribRecord) (c : Commit)
    (h : ∀ r ∈ m, r.total = r.commits + 2 * r.prs + r.issues) :
    ∀ r ∈ addCommit m c, r.total = r.commits + 2 * r.prs + r.issues := by
  cases hlogin : c.login with
  | none => simp only [addCommit, hlogin]; exact h
  | some l =>
    simp only [addCommit, hlogin]
    by_cases hemp : l.isEmpty
    · simp only [hemp, if_true]; exact h
    · rw [if_neg hemp]
      intro r hr
      obtain ⟨r', hr', heq⟩ := List.mem_map.mp hr
      have hr'P : r'.total = r'.commits + 2 * r'.prs + r'.issues := by
        rcases ensureRecord_mem m l r' hr' with h1 | h2
        · exact h r' h1
        · rw [h2]; rfl
      rw [← heq]
      by_cases hrl : r'.login = l
      · simp only [hrl, if_true]; omega
      · simp only [hrl, if_false]; exact hr'P

theorem addPR_total_inv (m : List ContribRecord) (p : ActorEvent)
    (h : ∀ r ∈ m, r.total = r.commits + 2 * r.prs + r.issues) :
    ∀ r ∈ addPR m p, r.total = r.commits + 2 * r.prs + r.issues := by
  unfold addPR
  by_cases hemp : p.author.isEmpty
  · simp only [hemp, if_true]; exact h
  · rw [if_neg hemp]
    intro r hr
    obtain ⟨r', hr', heq⟩ := List.mem_map.mp hr
    have hr'P : r'.total = r'.commits + 2 * r'.prs + r'.issues := by
      rcases ensureRecord_mem m p.author r' hr' with h1 | h2
      · exact h r' h1
      · rw [h2]; rfl
    rw [← heq]
    by_cases hrl : r'.login = p.author
    · simp only [hrl, if_true]; omega
    · simp only [hrl, if_false]; exact hr'P

theorem addIssue_total_inv (m : List ContribRecord) (e : ActorEvent)
    (h : ∀ r ∈ m, r.total = r.commits + 2 * r.prs + r.issues) :
    ∀ r ∈ addIssue m e, r.total = r.commits + 2 * r.prs + r.issues := by
  unfold addIssue
  by_cases hemp : e.author.isEmpty
  · simp only [hemp, if_true]; exact h
  · rw [if_neg hemp]
    intro r hr
    obtain ⟨r', hr', heq⟩ := List.mem_map.mp hr
    have hr'P : r'.total = r'.commits + 2 * r'.prs + r'.issues := by
      rcases ensureRecord_mem m e.author r' hr' with h1 | h2
      · exact h r' h1
      · rw [h2]; rfl
    rw [← heq]
    by_cases hrl : r'.login = e.author
    · simp only [hrl, if_true]; omega
    · simp only [hrl, if_false]; exact hr'P

theorem memberContributions_total (members : List Member)
    (commits : List Commit) (prs issues : List ActorEvent) :
    ∀ r ∈ memberContributions members commits prs issues,
      r.total = r.commits + 2 * r.prs + r.issues := by
  simp only [memberContributions]
  refine foldl_inv
    (fun (s : List ContribRecord) =>
      ∀ r ∈ s, r.total = r.commits + 2 * r.prs + r.issues)
    _ (fun s e hs => addIssue_total_inv s e hs) issues _ ?_
  refine foldl_inv _ _ (fun s e hs => addPR_total_inv s e hs) prs _ ?_
  refine foldl_inv _ _ (fun s e hs => addCommit_total_inv s e hs) commits _ ?_
  intro r hr
  obtain ⟨mem, _, heq⟩ := List.mem_map.mp hr
  rw [← heq]
  rfl

theorem repoContributorMap_total (commits : List Commit)
    (prs issues : List ActorEvent) :
    ∀ r ∈ repoContributorMap commits prs issues,
      r.total = r.commits + 2 * r.prs + r.issues := by
  simp only [repoContributorMap]
  refine foldl_inv
    (fun (s : List ContribRecord) =>
      ∀ r ∈ s, r.total = r.commits + 2 * r.prs + r.issues)
    _ (fun s e hs => addIssue_total_inv s e hs) issues _ ?_
  refine foldl_inv _ _ (fun s e hs => addPR_total_inv s e hs) prs _ ?_
  refine foldl_inv _ _ (fun s e hs => addCommit_total_inv s e hs) commits _ ?_
  intro r hr
  exact absurd hr (List.not_mem_nil r)

theorem mem_of_mem_ranked (n : ℕ) (s : List ContribRecord) (r : ContribRecord)
    (hr : r ∈ (List.insertionSort byTotalDesc s).take n) : r ∈ s :=
  (List.mem_insertionSort byTotalDesc).mp (List.mem_of_mem_take hr)

theorem filter_orderedInsert_total (t : ℕ) (a : ContribRecord) :
    ∀ s : List ContribRecord,
      (List.orderedInsert byTotalDesc a s).filter (fun r => r.total == t)
        = if a.total = t
          then a :: s.filter (fun r => r.total == t)
          else s.filter (fun r => r.total == t) := by
  intro s
  induction s with
  | nil =>
    by_cases hat : a.total = t <;>
      simp [List.orderedInsert, List.filter_cons, hat]
  | cons b s ih =>
    simp only [List.orderedInsert]
    by_cases hab : byTotalDesc a b
    · rw [if_pos hab]
      by_cases hat : a.total = t <;> simp [List.filter_cons, hat]
    · rw [if_neg hab]
      by_cases hat : a.total = t
      · have hbt : ¬(b.total = t) := by
          unfold byTotalDesc at hab
          omega
        simp [List.filter_cons, ih, hat, hbt]
      · simp [List.filter_cons, ih, hat]

theorem filter_insertionSort_total (t : ℕ) :
    ∀ l : List ContribRecord,
      (List.insertionSort byTotalDesc l).filter (fun r => r.total == t)
        = l.filter (fun r => r.total == t) := by
  intro l
  induction l with
  | nil => rfl
  | cons a l ih =>
    simp only [List.insertionSort]
    rw [filter_orderedInsert_total t a (List.insertionSort byTotalDesc l), ih]
    by_cases hat : a.total = t <;> simp [List.filter_cons, hat]

/-! ## Login handling -/

theorem addCommit_of_not_truthy (m : List ContribRecord) (c : Commit)
    (h : truthyLogin c.login = false) : addCommit m c = m := by
  cases hlogin : c.login with
  | none => simp [addCommit, hlogin]
  | some l =>
    have hemp : l.isEmpty = true := by
      simp only [truthyLogin, hlogin, Bool.not_eq_false'] at h
      exact h
    simp [addCommit, hlogin, hemp]

theorem memberContributions_filter_truthy (members : List Member)
    (commits : List Commit) (prs issues : List ActorEvent) :
    memberContributions members (commits.filter fun c => truthyLogin c.login)
        prs issues
      = memberContributions members commits prs issues := by
  simp only [memberContributions]
  rw [foldl_filter_of_id addCommit (fun c => truthyLogin c.login)
    (fun s c hc => addCommit_of_not_truthy s c hc) commits
    (seedMembers members)]

theorem calendarCounts_erase_login (today : ℤ) (commits : List Commit)
    (prs issues : List ActorEvent) :
    calendarCounts today (commits.map fun c => (⟨c.day, none⟩ : Commit))
        prs issues
      = calendarCounts today commits prs issues := by
  simp only [calendarCounts, List.foldl_map]

/-! ## Claim C1 -/

/-- Claim C1, counterexample: run with as-of day 2024-06-01 (and any input,
here empty), the calendar spans 2023-06-01..2024-06-01, which contains
Feb 29 2024, so the aggregator returns 367 day buckets, not 366. -/
theorem C1_cex :
    (createContributionCalendar (daysFromCivil 2024 6 1) [] [] []).length
      ≠ 366 := by
  rw [createContributionCalendar_length]
  decide

/-- Claim C1 as amended: for every as-of day and all input events, the
calendar has exactly one bucket per day of `[oneYearAgo today, today]`
(both endpoints included), in strictly ascending date order with no
duplicates, and its length is the span of that window plus one — 366 when
the span contains no leap day, 367 when it does. -/
theorem C1_amended (today : ℤ) (commits : List Commit)
    (prs issues : List ActorEvent) :
    (createContributionCalendar today commits prs issues).map
        (fun b => b.date) = windowDays today
      ∧ ((createContributionCalendar today commits prs issues).map
          fun b => b.date).Pairwise (· < ·)
      ∧ (createContributionCalendar today commits prs issues).length
          = (today + 1 - oneYearAgo today).toNat := by
  refine ⟨createContributionCalendar_map_date today commits prs issues, ?_,
    createContributionCalendar_length today commits prs issues⟩
  rw [createContributionCalendar_map_date]
  exact windowDays_pairwise today

/-! ## Claim C2 -/

/-- Claim C2, counterexample: run with as-of day 2025-10-11 and no commits,
the weekly commit series has 51 buckets while the trailing-365-day window
contains 52 Mondays: the window's final Monday is never initialized, and the
initialized Monday preceding the window start is removed by the final
filter. -/
theorem C2_cex :
    (groupCommitsByWeek (daysFromCivil 2025 10 11) []).length
      ≠ mondaysInTrailingWindow (daysFromCivil 2025 10 11) := by
  decide

/-- Claim C2 as amended: every bucket of the weekly commit series is a
Monday on/after the window start and the series is strictly ascending by
week start (no duplicates, hence sorted); density over the window fails
(see the counterexample). -/
theorem C2_amended (today : ℤ) (commits : List Commit) (w : WeekBucket)
    (hw : w ∈ groupCommitsByWeek today commits) :
    isMonday w.week = true ∧ oneYearAgo today ≤ w.week
      ∧ ((groupCommitsByWeek today commits).map
          fun w => w.week).Pairwise (· < ·) :=
  ⟨(groupCommitsByWeek_mem today commits w hw).1,
   (groupCommitsByWeek_mem today commits w hw).2,
   groupCommitsByWeek_pairwise today commits⟩

/-- Witness for `C2_amended` at a concrete input: the bucket of Monday
2024-10-14 in the empty-input series of as-of day 2025-10-11. -/
theorem C2_amended_witness :
    (⟨daysFromCivil 2024 10 14, 0⟩ : WeekBucket)
        ∈ groupCommitsByWeek (daysFromCivil 2025 10 11) []
      ∧ (isMonday (daysFromCivil 2024 10 14) = true
        ∧ oneYearAgo (daysFromCivil 2025 10 11) ≤ daysFromCivil 2024 10 14
        ∧ ((groupCommitsByWeek (daysFromCivil 2025 10 11) []).map
            fun w => w.week).Pairwise (· < ·)) :=
  ⟨by decide, C2_amended (daysFromCivil 2025 10 11) []
    ⟨daysFromCivil 2024 10 14, 0⟩ (by decide)⟩

/-! ## Claim C3 -/

/-- Claim C3, counterexample: when the data source returns an empty
code-frequency list, `run` hands the report an empty weekly code-change
series — not a dense series of 52–53 zero-filled week buckets. -/
theorem C3_cex :
    weeklyCodeChanges (daysFromCivil 2025 10 11) [] = []
      ∧ (weeklyCodeChanges (daysFromCivil 2025 10 11) []).length ≠ 52 := by
  exact ⟨rfl, by decide⟩

/-- Claim C3 as amended: the empty-upstream case yields an empty series
(`run` bypasses the aggregator); for any upstream list the series handed to
the report is strictly ascending by week start with no duplicates. -/
theorem C3_amended (today : ℤ) (codeFreq : List CodeFreqItem) :
    weeklyCodeChanges today [] = []
      ∧ ((weeklyCodeChanges today codeFreq).map
          fun w => w.week).Pairwise (· < ·) := by
  constructor
  · rfl
  · unfold weeklyCodeChanges
    by_cases hemp : codeFreq.isEmpty
    · simp [hemp]
    · rw [if_neg hemp]
      exact groupCodeFrequencyByWeek_pairwise today codeFreq

/-! ## Claim C4 -/

/-- Claim C4 (confirmed): every calendar bucket's level is derived by
exactly the spec's rule — with `maxCount` the maximum bucket count floored
at 1, level 0 iff count 0, and inclusive upper thresholds at 1/4, 1/2, 3/4
of `maxCount`. -/
theorem C4_level_rule (today : ℤ) (commits : List Commit)
    (prs issues : List ActorEvent) (b : DayBucket)
    (hb : b ∈ createContributionCalendar today commits prs issues) :
    b.level = specLevel (calendarMaxCount today commits prs issues) b.count
      ∧ 1 ≤ calendarMaxCount today commits prs issues := by
  constructor
  · simp only [createContributionCalendar] at hb
    obtain ⟨b', _, heq⟩ := List.mem_map.mp hb
    rw [← heq]
    exact levelFor_eq_specLevel _ _
  · unfold calendarMaxCount
    exact le_max_right _ 1

set_option maxRecDepth 40000 in
/-- Witness for `C4_level_rule`: the bucket of 2025-10-11 (count 1, level 4)
in the calendar of as-of day 2025-10-11 with a single same-day commit. -/
theorem C4_level_rule_witness :
    (⟨daysFromCivil 2025 10 11, 1, 4⟩ : DayBucket)
        ∈ createContributionCalendar (daysFromCivil 2025 10 11)
          [⟨daysFromCivil 2025 10 11, some "alice"⟩] [] []
      ∧ (4 : ℕ) = specLevel (calendarMaxCount (daysFromCivil 2025 10 11)
          [⟨daysFromCivil 2025 10 11, some "alice"⟩] [] []) 1 := by
  have hmem : (⟨daysFromCivil 2025 10 11, 1, 4⟩ : DayBucket)
      ∈ createContributionCalendar (daysFromCivil 2025 10 11)
        [⟨daysFromCivil 2025 10 11, some "alice"⟩] [] [] := by
    simp only [createContributionCalendar]
    refine List.mem_map.mpr ⟨⟨daysFromCivil 2025 10 11, 1, 0⟩, by decide, ?_⟩
    have hM : calendarMaxCount (daysFromCivil 2025 10 11)
        [⟨daysFromCivil 2025 10 11, some "alice"⟩] [] [] = 1 := by decide
    rw [hM, levelFor_eq_nat]
    decide
  exact ⟨hmem,
    (C4_level_rule (daysFromCivil 2025 10 11)
      [⟨daysFromCivil 2025 10 11, some "alice"⟩] [] []
      ⟨daysFromCivil 2025 10 11, 1, 4⟩ hmem).1⟩

/-! ## Claim C5 -/

/-- Claim C5 (confirmed): for fixed `maxCount ≥ 1`, the level is
non-decreasing in the count, and level 0 holds exactly for count 0. -/
theorem C5_level_monotone (m c1 c2 : ℕ) (hm : 1 ≤ m) (hc : c1 ≤ c2) :
    levelFor m c1 ≤ levelFor m c2 ∧ (levelFor m c1 = 0 ↔ c1 = 0) := by
  simp only [levelFor_eq_nat]
  constructor
  · split_ifs <;> omega
  · split_ifs <;> simp_all

/-- Witness for `C5_level_monotone` at `maxCount = 4`, counts 1 and 3. -/
theorem C5_level_monotone_witness :
    (1 : ℕ) ≤ 4 ∧ (1 : ℕ) ≤ 3
      ∧ (levelFor 4 1 ≤ levelFor 4 3 ∧ (levelFor 4 1 = 0 ↔ (1 : ℕ) = 0)) :=
  ⟨by decide, by decide, C5_level_monotone 4 1 3 (by decide) (by decide)⟩

/-! ## Claim C6 -/

/-- Claim C6 (confirmed): every record in either ranker's output satisfies
`total = commits + 2·prs + issues`, seeded member records included. -/
theorem C6_total_equation (members : List Member) (commits : List Commit)
    (prs issues : List ActorEvent) (r : ContribRecord) :
    (r ∈ topContributors members commits prs issues →
        r.total = r.commits + 2 * r.prs + r.issues)
      ∧ (r ∈ repoTopContributors commits prs issues →
        r.total = r.commits + 2 * r.prs + r.issues) := by
  constructor
  · intro hr
    exact memberContributions_total members commits prs issues r
      (mem_of_mem_ranked 20 _ r hr)
  · intro hr
    exact repoContributorMap_total commits prs issues r
      (mem_of_mem_ranked 10 _ r hr)

/-- Witness for `C6_total_equation`: a seeded member with zero activity in
the organization-wide ranking. -/
theorem C6_total_equation_witness :
    (⟨"alice", "a", 0, 0, 0, 0⟩ : ContribRecord)
        ∈ topContributors [⟨"alice", "a"⟩] [] [] []
      ∧ (0 : ℕ) = 0 + 2 * 0 + 0 :=
  ⟨by decide,
   (C6_total_equation [⟨"alice", "a"⟩] [] [] []
     ⟨"alice", "a", 0, 0, 0, 0⟩).1 (by decide)⟩

/-! ## Claim C7 -/

/-- Claim C7, counterexample: a PR whose raw record has no user login is
normalized to the sentinel author "unknown" and is ranked under that
sentinel — the ranked list does contain the literal identity "unknown". -/
theorem C7_cex :
    (topContributors [] [] [⟨0, normalizeActor none⟩] []).map
      (fun r => r.login) = ["unknown"] := by
  decide

/-- Claim C7 as amended: commit events without a resolvable (truthy) login
are dropped from the ranking, and the calendar is blind to logins, so such
commits still count in the day buckets; but PR/issue events with a missing
login are normalized to the sentinel "unknown" and are ranked under it
(see the counterexample). -/
theorem C7_amended (today : ℤ) (members : List Member) (commits : List Commit)
    (prs issues : List ActorEvent) :
    topContributors members commits prs issues
        = topContributors members
          (commits.filter fun c => truthyLogin c.login) prs issues
      ∧ createContributionCalendar today commits prs issues
          = createContributionCalendar today
            (commits.map fun c => (⟨c.day, none⟩ : Commit)) prs issues
      ∧ normalizeActor none = "unknown" := by
  refine ⟨?_, ?_, rfl⟩
  · unfold topContributors
    rw [memberContributions_filter_truthy]
  · unfold createContributionCalendar calendarMaxCount
    rw [calendarCounts_erase_login]

/-! ## Claim C8 -/

/-- Claim C8 (confirmed): both rankers return a list ordered by total
descending, capped at 20 (organization) and 10 (repository); and the stable
sort keeps ties in first-encountered order — the records of any fixed total
appear in exactly the accumulation (insertion) order. -/
theorem C8_ranking (members : List Member) (commits : List Commit)
    (prs issues : List ActorEvent) (t : ℕ) :
    (topContributors members commits prs issues).Pairwise
        (fun a b => b.total ≤ a.total)
      ∧ (topContributors members commits prs issues).length ≤ 20
      ∧ (List.insertionSort byTotalDesc
            (memberContributions members commits prs issues)).filter
            (fun r => r.total == t)
          = (memberContributions members commits prs issues).filter
            (fun r => r.total == t)
      ∧ (repoTopContributors commits prs issues).Pairwise
          (fun a b => b.total ≤ a.total)
      ∧ (repoTopContributors commits prs issues).length ≤ 10
      ∧ (List.insertionSort byTotalDesc
            (repoContributorMap commits prs issues)).filter
            (fun r => r.total == t)
          = (repoContributorMap commits prs issues).filter
            (fun r => r.total == t) := by
  refine ⟨?_, ?_, filter_insertionSort_total t _, ?_, ?_,
    filter_insertionSort_total t _⟩
  · exact List.Pairwise.sublist (List.take_sublist 20 _)
      (List.sorted_insertionSort byTotalDesc _)
  · exact List.length_take_le 20 _
  · exact List.Pairwise.sublist (List.take_sublist 10 _)
      (List.sorted_insertionSort byTotalDesc _)
  · exact List.length_take_le 10 _

/-! ## Claim C10 -/

/-- Claim C10 (confirmed, concrete instance): with as-of day 2025-10-11 the
window starts on Friday 2024-10-11; a commit on that day is inside the
window, lands in the bucket of Monday 2024-10-07 (before the window start)
in the intermediate map, and the final filter then removes that bucket, so
the commit is absent from the weekly series — its counts sum to zero. -/
theorem C10_first_week_dropped :
    oneYearAgo (daysFromCivil 2025 10 11) ≤ daysFromCivil 2024 10 11
      ∧ getWeekKey (daysFromCivil 2024 10 11)
          < oneYearAgo (daysFromCivil 2025 10 11)
      ∧ (⟨getWeekKey (daysFromCivil 2024 10 11), 1⟩ : WeekBucket)
          ∈ commitWeekMap (daysFromCivil 2025 10 11)
            [⟨daysFromCivil 2024 10 11, some "dev"⟩]
      ∧ ((groupCommitsByWeek (daysFromCivil 2025 10 11)
          [⟨daysFromCivil 2024 10 11, some "dev"⟩]).map
            fun w => w.count).sum = 0 :=
  ⟨by decide, by decide, by decide, by decide⟩
